import Mathlib

/-!
Verification of the Initiator handshake of ibverbs-rs.

The core under verification is Sender::connect in src/src/sender.rs, together
with the setters of Sender and the control-message codec it uses.  Pure data
is embedded as Lean structures over Nat (machine integers carry explicit
bounds where they matter); the stateful handshake is embedded as a function
from an environment (address-family resolver, resource provider) and an input
script (the byte frames read from the control connection) to the trace of
observable events, the updated Sender and an optional error.
-/

namespace IbverbsRs

/-- Address family, as in the repository crate: selects which class of GID
entries is eligible for queue-pair resolution. -/
inductive Family
  | V4
  | V6
deriving DecidableEq, Repr

/-- Memory-region metadata {address: u64, rkey: u32, length: u64}, as in the
repository crate (MrMetadata). -/
structure MrMetadata where
  address : Nat
  rkey : Nat
  length : Nat
deriving DecidableEq, Repr

/-- Modelled from the spec: MrMetadata::SIZE, the byte size of the metadata
record, is defined in the crate root (not under src/); the spec gives the
field widths u64 + u32 + u64, so the size is 20. Its exact value is not load
bearing for any claim. -/
def MrMetadata.SIZE : Nat := 20

/-- Queue-pair metadata {subnet_id: u64, interface_id: u64, qpn: u32,
psn: u32}, as in the repository crate (QpMetadata). -/
structure QpMetadata where
  subnet_id : Nat
  interface_id : Nat
  qpn : Nat
  psn : Nat
deriving DecidableEq, Repr

/-- The control-message tagged union, as in the repository crate
(SocketCommCommand): Mr is RegisterMemory, InitQp is InitQueuePair,
ConnectQp is ConnectQueuePair, Stop is Stop. -/
inductive SocketCommCommand
  | Mr (m : MrMetadata)
  | InitQp (idx : Nat) (fam : Family)
  | ConnectQp (m : QpMetadata)
  | Stop
deriving DecidableEq, Repr

/-- Field bounds under which an MrMetadata value is representable on the wire
(u64, u32, u64). -/
abbrev MrMetadata.valid (m : MrMetadata) : Prop :=
  m.address < 2 ^ 64 ∧ m.rkey < 2 ^ 32 ∧ m.length < 2 ^ 64

/-- Field bounds under which a QpMetadata value is representable on the wire
(u64, u64, u32, u32). -/
abbrev QpMetadata.valid (q : QpMetadata) : Prop :=
  q.subnet_id < 2 ^ 64 ∧ q.interface_id < 2 ^ 64 ∧ q.qpn < 2 ^ 32 ∧ q.psn < 2 ^ 32

/-- Field bounds under which a control message is representable on the wire. -/
abbrev SocketCommCommand.valid : SocketCommCommand → Prop
  | .Mr m => m.valid
  | .InitQp i _ => i < 2 ^ 32
  | .ConnectQp q => q.valid
  | .Stop => True

/-! ### Control-message codec

Modelled from the spec: the wire types SocketComm/SocketCommCommand and their
bincode serialization live in the crate root, which is not under src/.  The
spec (sections 4.1 and 6) fixes the layout: a fixed-width discriminant
(0 = RegisterMemory, 1 = InitQueuePair, 2 = ConnectQueuePair, 3 = Stop)
followed by the variant fields in declared order, each a fixed-width
little-endian integer; the family is encoded as a u32 (0 = V4, 1 = V6).
Decode fails on truncated input, an unknown discriminant, an invalid family
value, trailing payload, or a message exceeding the fixed 1024-byte receive
buffer. -/

/-- Little-endian byte representation of a u32 value. -/
def u32Bytes (n : Nat) : List Nat :=
  [n % 256, n / 256 % 256, n / 65536 % 256, n / 16777216 % 256]

/-- Little-endian byte representation of a u64 value: low u32 then high u32. -/
def u64Bytes (n : Nat) : List Nat :=
  u32Bytes (n % 4294967296) ++ u32Bytes (n / 4294967296)

/-- Read a little-endian u32 from the front of a byte list. -/
def readU32 : List Nat → Option (Nat × List Nat)
  | b0 :: b1 :: b2 :: b3 :: rest =>
      some (b0 + 256 * b1 + 65536 * b2 + 16777216 * b3, rest)
  | _ => none

/-- Read a little-endian u64 from the front of a byte list. -/
def readU64 (bs : List Nat) : Option (Nat × List Nat) :=
  match readU32 bs with
  | none => none
  | some (lo, r1) =>
    match readU32 r1 with
    | none => none
    | some (hi, r2) => some (lo + 4294967296 * hi, r2)

/-- Numeric code of an address family on the wire. -/
def famCode : Family → Nat
  | .V4 => 0
  | .V6 => 1

/-- Modelled from the spec: encode a control message as its wire bytes
(section 6 table). -/
def encode : SocketCommCommand → List Nat
  | .Mr m => u32Bytes 0 ++ u64Bytes m.address ++ u32Bytes m.rkey ++ u64Bytes m.length
  | .InitQp i f => u32Bytes 1 ++ u32Bytes i ++ u32Bytes (famCode f)
  | .ConnectQp q =>
      u32Bytes 2 ++ u64Bytes q.subnet_id ++ u64Bytes q.interface_id ++
        u32Bytes q.qpn ++ u32Bytes q.psn
  | .Stop => u32Bytes 3

/-- Decode failures of the control-message codec. -/
inductive DecodeError
  | truncated
  | unknownDiscriminant
  | badFamily
  | trailing
  | oversized
deriving DecidableEq, Repr

/-- Capacity of the fixed receive buffer used by the control connection. -/
def BUFFER_CAP : Nat := 1024

/-- Modelled from the spec: parse one control message from the front of a
byte sequence, returning the message and the unconsumed remainder.  This is
the prefix parser underlying both the strict codec contract and the reads of
connect, which deserialize from a fixed zero-initialized buffer and ignore
what follows the message. -/
def parseMsg (bs : List Nat) : Except DecodeError (SocketCommCommand × List Nat) :=
  match readU32 bs with
  | none => .error .truncated
  | some (d, r0) =>
    if d = 0 then
      match readU64 r0 with
      | none => .error .truncated
      | some (addr, r1) =>
        match readU32 r1 with
        | none => .error .truncated
        | some (rk, r2) =>
          match readU64 r2 with
          | none => .error .truncated
          | some (len, r3) => .ok (.Mr ⟨addr, rk, len⟩, r3)
    else if d = 1 then
      match readU32 r0 with
      | none => .error .truncated
      | some (ix, r1) =>
        match readU32 r1 with
        | none => .error .truncated
        | some (fv, r2) =>
          if fv = 0 then .ok (.InitQp ix .V4, r2)
          else if fv = 1 then .ok (.InitQp ix .V6, r2)
          else .error .badFamily
    else if d = 2 then
      match readU64 r0 with
      | none => .error .truncated
      | some (sid, r1) =>
        match readU64 r1 with
        | none => .error .truncated
        | some (iid, r2) =>
          match readU32 r2 with
          | none => .error .truncated
          | some (qn, r3) =>
            match readU32 r3 with
            | none => .error .truncated
            | some (ps, r4) => .ok (.ConnectQp ⟨sid, iid, qn, ps⟩, r4)
    else if d = 3 then .ok (.Stop, r0)
    else .error .unknownDiscriminant

/-- Modelled from the spec: the strict codec contract decode(bytes), failing
on truncation, unknown discriminant, trailing payload, or a sequence larger
than the fixed receive buffer. -/
def decode (bs : List Nat) : Except DecodeError SocketCommCommand :=
  if BUFFER_CAP < bs.length then .error .oversized
  else
    match parseMsg bs with
    | .error e => .error e
    | .ok (m, rest) => if rest.isEmpty then .ok m else .error .trailing

/-- The fixed receive buffer as seen by a blocking read that received the
byte frame: the frame (clipped to the buffer capacity) followed by the
remaining zero initialization. -/
def padBuf (frame : List Nat) : List Nat :=
  frame.take BUFFER_CAP ++ List.replicate (BUFFER_CAP - frame.length) 0

/-- One read-and-decode step of connect: deserialize a message from the
front of the fixed zero-initialized receive buffer holding the frame
(bincode's slice deserialization does not reject trailing bytes). -/
def recvMsg (frame : List Nat) : Except DecodeError SocketCommCommand :=
  match parseMsg (padBuf frame) with
  | .error e => .error e
  | .ok (m, _) => .ok m


/-! ### The Sender session and its collaborators

The Sender structure mirrors src/src/sender.rs lines 6..18; external handles
(device, protection domain, registered memory region) are opaque numeric
identities, as the spec prescribes for the protocol layer. -/

/-- The address of the Responder as connect sees it: its Display text and
its address family (IpAddr::is_ipv4). -/
structure IpAddrM where
  text : List Char
  isV4 : Bool
deriving DecidableEq, Repr

/-- The registered metadata memory region handle: its reported address,
local key and remote key (IbvMr::addr, lkey, rkey). -/
structure MrHandle where
  addr : Nat
  lkey : Nat
  rkey : Nat
deriving DecidableEq, Repr

/-- One GID-table entry yielded by the address-family resolver
(gid_table.get_entry_by_index): GID index, port, and the GID-derived
subnet and interface identifiers. -/
structure GidEntry where
  gidx : Nat
  port : Nat
  subnet_id : Nat
  interface_id : Nat
deriving DecidableEq, Repr

/-- A connected queue pair as it sits in qp_list: the loop index and GID
entry it was created from, its queue-pair number and packet sequence number,
and the remote identity it was connected with. -/
structure IbvQp where
  idx : Nat
  gidx : Nat
  port : Nat
  qpn : Nat
  psn : Nat
  remote : QpMetadata
deriving DecidableEq, Repr

/-- The Sender session state, mirroring the fields of struct Sender. -/
structure Sender where
  device : Nat
  receiver_socket_address : IpAddrM
  receiver_socket_port : Nat
  sender_metadata : MrMetadata
  sender_metadata_mr : MrHandle
  receiver_metadata_address : Nat
  receiver_metadata_rkey : Nat
  pd : Nat
  qp_list : List IbvQp
  num_qps : Nat
  family : Family
deriving DecidableEq, Repr

/-- Sender::set_metadata_address (sender.rs lines 44..46). -/
def Sender.set_metadata_address (s : Sender) (addr : Nat) : Sender :=
  { s with sender_metadata := { s.sender_metadata with address := addr } }

/-- Sender::set_metadata_rkey (sender.rs lines 47..49). -/
def Sender.set_metadata_rkey (s : Sender) (rkey : Nat) : Sender :=
  { s with sender_metadata := { s.sender_metadata with rkey := rkey } }

/-- Sender::set_metadata_length (sender.rs lines 50..52). -/
def Sender.set_metadata_length (s : Sender) (length : Nat) : Sender :=
  { s with sender_metadata := { s.sender_metadata with length := length } }

/-- Sender::metadata_addr (sender.rs lines 53..55). -/
def Sender.metadata_addr (s : Sender) : Nat :=
  s.sender_metadata_mr.addr

/-- Sender::metadata_lkey (sender.rs lines 56..58). -/
def Sender.metadata_lkey (s : Sender) : Nat :=
  s.sender_metadata_mr.lkey

/-- The control-connection target string built by connect (sender.rs lines
61..65): addr:port for IPv4, bracketed [addr]:port otherwise. -/
def sendAddress (a : IpAddrM) (port : Nat) : List Char :=
  if a.isV4 then a.text ++ (':' :: (Nat.repr port).toList)
  else '[' :: (a.text ++ (']' :: ':' :: (Nat.repr port).toList))

/-- The environment of connect: the address-family resolver and the
resource-provider operations it consumes.  The resolver maps a queue-pair
index and family to a GID entry or nothing; the provider reports, per loop
index, the queue-pair number and packet sequence number of the queue pair
created there, and whether each fallible operation succeeds. -/
structure ConnEnv where
  resolve : Nat → Family → Option GidEntry
  qpn : Nat → Nat
  psn : Nat → Nat
  qpInitOk : Nat → Bool
  qpConnectOk : Nat → Bool
  postRecvOk : Nat → Bool
  waitOk : Nat → Bool

/-- Errors surfaced by the embedded connect; decode failures carry the codec
error (the source unwraps them, which aborts the call just the same). -/
inductive HandshakeError
  | connection
  | decode (e : DecodeError)
  | resource
deriving DecidableEq, Repr

/-- Observable events of one connect run, in order: control messages sent
and received, resource-provider side effects, and the final barrier's
receive postings and completion waits. -/
inductive Event
  | sent (m : SocketCommCommand)
  | recvd (m : SocketCommCommand)
  | qpCreated (i : Nat)
  | qpInited (i : Nat)
  | qpConnected (i : Nat)
  | postRecv (i : Nat) (addr : Nat) (len : Nat) (lkey : Nat)
  | waitEvent (i : Nat)
deriving DecidableEq, Repr

/-- The local half of queue-pair identity sent as ConnectQueuePair
(sender.rs lines 106..115): subnet and interface id from the resolved GID,
qpn and psn from the just-connected queue pair. -/
def localQpMeta (env : ConnEnv) (g : GidEntry) (i : Nat) : QpMetadata :=
  { subnet_id := g.subnet_id, interface_id := g.interface_id,
    qpn := env.qpn i, psn := env.psn i }

/-- The queue pair pushed onto qp_list for loop index i (sender.rs line 116). -/
def mkQp (env : ConnEnv) (g : GidEntry) (i : Nat) (remote : QpMetadata) : IbvQp :=
  { idx := i, gidx := g.gidx, port := g.port,
    qpn := env.qpn i, psn := env.psn i, remote := remote }

/-- The per-queue-pair negotiation loop (sender.rs lines 87..125), processing
indices i, i+1, ..., i+n-1 against the remaining input frames.  Returns the
events emitted, the queue pairs pushed, the unconsumed inputs, and the error
that aborted the loop, if any.  An unresolvable index is skipped without any
event; an unexpected (non-ConnectQp) reply is silently ignored, exactly as
the if-let in the source. -/
def qpLoop (env : ConnEnv) (fam : Family) :
    Nat → Nat → List (List Nat) →
    List Event × List IbvQp × List (List Nat) × Option HandshakeError
  | _, 0, inputs => ([], [], inputs, none)
  | i, n + 1, inputs =>
    match env.resolve i fam with
    | none => qpLoop env fam (i + 1) n inputs
    | some g =>
      if env.qpInitOk i then
        let e1 := [Event.qpCreated i, Event.qpInited i, Event.sent (.InitQp i fam)]
        match inputs with
        | [] => (e1, [], [], some .connection)
        | frame :: rest =>
          match recvMsg frame with
          | .error de => (e1, [], rest, some (.decode de))
          | .ok msg =>
            match msg with
            | .ConnectQp remote =>
              if env.qpConnectOk i then
                let qp := mkQp env g i remote
                let e3 := e1 ++ [Event.recvd msg, Event.qpConnected i,
                  Event.sent (.ConnectQp (localQpMeta env g i))]
                match qpLoop env fam (i + 1) n rest with
                | (es, qs, rem, err) => (e3 ++ es, qp :: qs, rem, err)
              else (e1 ++ [Event.recvd msg], [], rest, some .resource)
            | _ =>
              match qpLoop env fam (i + 1) n rest with
              | (es, qs, rem, err) => ((e1 ++ [Event.recvd msg]) ++ es, qs, rem, err)
      else ([Event.qpCreated i], [], inputs, some .resource)

/-- The readiness barrier (sender.rs lines 132..140): for each queue pair of
qp_list in order, post one receive work request pointing at the local
metadata region and block until a completion event. -/
def barrier (env : ConnEnv) (mrAddr mrLkey : Nat) :
    List IbvQp → List Event × Option HandshakeError
  | [] => ([], none)
  | qp :: rest =>
    if env.postRecvOk qp.idx then
      if env.waitOk qp.idx then
        match barrier env mrAddr mrLkey rest with
        | (es, err) =>
          (Event.postRecv qp.idx mrAddr MrMetadata.SIZE mrLkey ::
            Event.waitEvent qp.idx :: es, err)
      else ([Event.postRecv qp.idx mrAddr MrMetadata.SIZE mrLkey,
        Event.waitEvent qp.idx], some .resource)
    else ([Event.postRecv qp.idx mrAddr MrMetadata.SIZE mrLkey], some .resource)

/-- The RegisterMemory payload connect sends first (sender.rs lines 68..76):
the registered region's address and rkey with the length-0 placeholder. -/
def localMeta (s : Sender) : MrMetadata :=
  { address := s.sender_metadata_mr.addr, rkey := s.sender_metadata_mr.rkey,
    length := 0 }

/-- The metadata-step store (sender.rs lines 82..86): an if-let that stores
address and rkey when the received message is RegisterMemory and silently
does nothing otherwise. -/
def applyMeta (s : Sender) (m : SocketCommCommand) : Sender :=
  match m with
  | .Mr md =>
    { s with
      receiver_metadata_address := md.address
      receiver_metadata_rkey := md.rkey }
  | _ => s

/-- The outcome of one connect run: the event trace, the mutated Sender
(mutations performed before an abort persist, as through &mut self), and
the error, if any. -/
structure ConnectOut where
  events : List Event
  sender : Sender
  result : Option HandshakeError
deriving DecidableEq, Repr

/-- Sender::connect (sender.rs lines 59..142), over an environment and the
list of byte frames the control connection delivers to its reads. -/
def connect (env : ConnEnv) (s : Sender) (inputs : List (List Nat)) : ConnectOut :=
  let _sendAddr := sendAddress s.receiver_socket_address s.receiver_socket_port
  match inputs with
  | [] => ⟨[Event.sent (.Mr (localMeta s))], s, some .connection⟩
  | frame :: rest =>
    match recvMsg frame with
    | .error de => ⟨[Event.sent (.Mr (localMeta s))], s, some (.decode de)⟩
    | .ok msg =>
      let s1 := applyMeta s msg
      match qpLoop env s1.family 0 s1.num_qps rest with
      | (es, qs, _, some er) =>
        ⟨Event.sent (.Mr (localMeta s)) :: Event.recvd msg :: es,
          { s1 with qp_list := s1.qp_list ++ qs }, some er⟩
      | (es, qs, _, none) =>
        let s2 := { s1 with qp_list := s1.qp_list ++ qs }
        match barrier env s2.sender_metadata_mr.addr s2.sender_metadata_mr.lkey
            s2.qp_list with
        | (bs, berr) =>
          ⟨Event.sent (.Mr (localMeta s)) :: Event.recvd msg ::
            (es ++ (Event.sent .Stop :: bs)), s2, berr⟩

/-- The messages written to the control connection, in order, extracted from
an event trace. -/
def sentMessages (es : List Event) : List SocketCommCommand :=
  es.filterMap fun e =>
    match e with
    | .sent m => some m
    | _ => none

/-- Concatenation of the images of a list's elements, used to state traces
index by index. -/
def catMap (f : α → List β) : List α → List β
  | [] => []
  | a :: l => f a ++ catMap f l

/-- The events the negotiation loop emits for one index: nothing when the
index is unresolvable, otherwise the create/init/InitQp/reply/connect/
ConnectQp sequence. -/
def idxEvents (env : ConnEnv) (fam : Family) (r : Nat → QpMetadata) (j : Nat) :
    List Event :=
  match env.resolve j fam with
  | none => []
  | some g => [Event.qpCreated j, Event.qpInited j, Event.sent (.InitQp j fam),
      Event.recvd (.ConnectQp (r j)), Event.qpConnected j,
      Event.sent (.ConnectQp (localQpMeta env g j))]

/-- The queue pair the negotiation loop produces for one index, if any. -/
def idxQp (env : ConnEnv) (fam : Family) (r : Nat → QpMetadata) (j : Nat) :
    Option IbvQp :=
  (env.resolve j fam).map fun g => mkQp env g j (r j)

/-- The indices in i, ..., i+n-1 that the resolver can serve. -/
def resolvedIdxs (env : ConnEnv) (fam : Family) (i n : Nat) : List Nat :=
  (List.range' i n).filter fun j => (env.resolve j fam).isSome

/-- The input script of a well-behaved Responder for the negotiation loop:
one encoded ConnectQueuePair reply per resolvable index, in order. -/
def qpScript (env : ConnEnv) (fam : Family) (r : Nat → QpMetadata) (i n : Nat) :
    List (List Nat) :=
  (resolvedIdxs env fam i n).map fun j => encode (.ConnectQp (r j))

/-- The event suffix of a completed barrier over a queue-pair list. -/
def barrierEvents (mrAddr mrLkey : Nat) (qps : List IbvQp) : List Event :=
  catMap (fun qp => [Event.postRecv qp.idx mrAddr MrMetadata.SIZE mrLkey,
    Event.waitEvent qp.idx]) qps

/-- An environment whose fallible resource-provider operations all succeed. -/
def goodEnv (env : ConnEnv) : Prop :=
  (∀ i, env.qpInitOk i = true) ∧ (∀ i, env.qpConnectOk i = true) ∧
  (∀ i, env.postRecvOk i = true) ∧ (∀ i, env.waitOk i = true)

/-! ### Concrete environments and sessions used to instantiate theorems -/

/-- A resolver that serves every index, with all provider operations
succeeding. -/
def wEnv : ConnEnv :=
  { resolve := fun i _ => some ⟨i, 1, 10 + i, 20 + i⟩
    qpn := fun i => 100 + i
    psn := fun i => 200 + i
    qpInitOk := fun _ => true
    qpConnectOk := fun _ => true
    postRecvOk := fun _ => true
    waitOk := fun _ => true }

/-- Like wEnv but with index 1 unresolvable. -/
def wEnvSkip : ConnEnv :=
  { wEnv with resolve := fun i _ =>
      if i = 1 then none else some ⟨i, 1, 10 + i, 20 + i⟩ }

/-- A fresh Sender session requesting n queue pairs. -/
def wSender (n : Nat) : Sender :=
  { device := 0
    receiver_socket_address := ⟨['l', 'o'], true⟩
    receiver_socket_port := 8080
    sender_metadata := ⟨0, 0, 0⟩
    sender_metadata_mr := ⟨500, 7, 9⟩
    receiver_metadata_address := 0
    receiver_metadata_rkey := 0
    pd := 0
    qp_list := []
    num_qps := n
    family := Family.V4 }

/-- A fixed Responder queue-pair identity per index. -/
def wR : Nat → QpMetadata := fun _ => ⟨1, 2, 3, 4⟩

/-- The GID entries wEnv serves. -/
def wG : Nat → GidEntry := fun i => ⟨i, 1, 10 + i, 20 + i⟩

/-! ### Codec round-trip lemmas -/

theorem readU32_u32Bytes (x : Nat) (hx : x < 2 ^ 32) (rest : List Nat) :
    readU32 (u32Bytes x ++ rest) = some (x, rest) := by
  simp only [u32Bytes, List.cons_append, List.nil_append, readU32,
    Option.some.injEq, Prod.mk.injEq]
  exact ⟨by omega, trivial⟩

theorem readU64_u64Bytes (x : Nat) (hx : x < 2 ^ 64) (rest : List Nat) :
    readU64 (u64Bytes x ++ rest) = some (x, rest) := by
  have h1 : x % 4294967296 < 2 ^ 32 := by omega
  have h2 : x / 4294967296 < 2 ^ 32 := by omega
  simp only [u64Bytes, List.append_assoc, readU64,
    readU32_u32Bytes _ h1, readU32_u32Bytes _ h2,
    Option.some.injEq, Prod.mk.injEq]
  exact ⟨by omega, trivial⟩

/-- Parsing the encoding of a valid message from the front of any byte
sequence yields the message and the untouched remainder. -/
theorem parseMsg_encode (m : SocketCommCommand) (hm : m.valid) (tail : List Nat) :
    parseMsg (encode m ++ tail) = .ok (m, tail) := by
  cases m with
  | Mr md =>
    obtain ⟨h1, h2, h3⟩ := hm
    simp [encode, parseMsg, List.append_assoc,
      readU32_u32Bytes 0 (by norm_num), readU64_u64Bytes _ h1,
      readU32_u32Bytes _ h2, readU64_u64Bytes _ h3]
  | InitQp i f =>
    cases f <;>
      simp [encode, parseMsg, famCode, List.append_assoc,
        readU32_u32Bytes 1 (by norm_num), readU32_u32Bytes _ hm,
        readU32_u32Bytes 0 (by norm_num)]
  | ConnectQp q =>
    obtain ⟨h1, h2, h3, h4⟩ := hm
    simp [encode, parseMsg, List.append_assoc,
      readU32_u32Bytes 2 (by norm_num), readU64_u64Bytes _ h1,
      readU64_u64Bytes _ h2, readU32_u32Bytes _ h3, readU32_u32Bytes _ h4]
  | Stop =>
    simp [encode, parseMsg, List.append_assoc, readU32_u32Bytes 3 (by norm_num)]

/-- Every encoded control message fits well within the receive buffer. -/
theorem encode_length_le (m : SocketCommCommand) : (encode m).length ≤ 32 := by
  cases m <;> simp [encode, u32Bytes, u64Bytes]

/-- A read that received exactly one encoded valid message decodes to that
message. -/
theorem recvMsg_encode (m : SocketCommCommand) (hm : m.valid) :
    recvMsg (encode m) = .ok m := by
  have hlen : (encode m).length ≤ BUFFER_CAP :=
    le_trans (encode_length_le m) (by norm_num [BUFFER_CAP])
  simp [recvMsg, padBuf, List.take_of_length_le hlen, parseMsg_encode m hm]

/-! ### Trace characterization lemmas -/

theorem catMap_nil (f : α → List β) : catMap f [] = [] := rfl

theorem catMap_cons (f : α → List β) (a : α) (l : List α) :
    catMap f (a :: l) = f a ++ catMap f l := rfl

theorem catMap_append (f : α → List β) (l₁ l₂ : List α) :
    catMap f (l₁ ++ l₂) = catMap f l₁ ++ catMap f l₂ := by
  induction l₁ with
  | nil => simp [catMap]
  | cons a l ih => simp [catMap, ih]

theorem sentMessages_append (es fs : List Event) :
    sentMessages (es ++ fs) = sentMessages es ++ sentMessages fs := by
  simp [sentMessages]

theorem sentMessages_cons (e : Event) (es : List Event) :
    sentMessages (e :: es) =
      (match e with
        | .sent m => [m]
        | _ => []) ++ sentMessages es := by
  cases e <;> simp [sentMessages]

/-- The barrier emits no control messages. -/
theorem sentMessages_barrierEvents (a l : Nat) (qps : List IbvQp) :
    sentMessages (barrierEvents a l qps) = [] := by
  induction qps with
  | nil => rfl
  | cons qp rest ih =>
    simp [barrierEvents, catMap, sentMessages_append] at ih ⊢
    simpa [sentMessages] using ih

/-- A fully successful barrier run: one posting and one wait per queue pair,
in list order, and no error. -/
theorem barrier_spec (env : ConnEnv) (a l : Nat)
    (hp : ∀ i, env.postRecvOk i = true) (hw : ∀ i, env.waitOk i = true) :
    ∀ qps : List IbvQp, barrier env a l qps = (barrierEvents a l qps, none) := by
  intro qps
  induction qps with
  | nil => rfl
  | cons qp rest ih =>
    simp [barrier, hp qp.idx, hw qp.idx, ih, barrierEvents, catMap]

/-- The negotiation loop against a well-behaved Responder script: per index
in increasing order, the unresolvable ones are skipped silently and each
resolvable one contributes its full exchange and its queue pair; the loop
succeeds and leaves exactly the extra frames unread. -/
theorem qpLoop_spec (env : ConnEnv) (fam : Family) (r : Nat → QpMetadata)
    (hg : goodEnv env) (hr : ∀ j, (r j).valid) :
    ∀ (n i : Nat) (extra : List (List Nat)),
      qpLoop env fam i n (qpScript env fam r i n ++ extra) =
        (catMap (idxEvents env fam r) (List.range' i n),
         List.filterMap (idxQp env fam r) (List.range' i n),
         extra, none) := by
  intro n
  induction n with
  | zero =>
    intro i extra
    simp [qpLoop, qpScript, resolvedIdxs, catMap]
  | succ n ih =>
    intro i extra
    rw [List.range'_succ]
    cases hres : env.resolve i fam with
    | none =>
      have hscript : qpScript env fam r i (n + 1) = qpScript env fam r (i + 1) n := by
        simp [qpScript, resolvedIdxs, List.range'_succ, List.filter_cons, hres]
      rw [hscript]
      simp only [qpLoop, hres]
      rw [ih (i + 1) extra]
      simp [catMap, idxEvents, idxQp, hres]
    | some g =>
      have hscript : qpScript env fam r i (n + 1) =
          encode (.ConnectQp (r i)) :: qpScript env fam r (i + 1) n := by
        simp [qpScript, resolvedIdxs, List.range'_succ, List.filter_cons, hres]
      rw [hscript]
      have hrecv : recvMsg (encode (.ConnectQp (r i))) = .ok (.ConnectQp (r i)) :=
        recvMsg_encode _ (hr i)
      simp only [qpLoop, hres, hg.1 i, if_true, List.cons_append, hrecv]
      rw [ih (i + 1) extra]
      simp [hg.2.1 i, catMap, idxEvents, idxQp, hres]

theorem applyMeta_family (s : Sender) (m : SocketCommCommand) :
    (applyMeta s m).family = s.family := by
  cases m <;> rfl

theorem applyMeta_num_qps (s : Sender) (m : SocketCommCommand) :
    (applyMeta s m).num_qps = s.num_qps := by
  cases m <;> rfl

theorem applyMeta_qp_list (s : Sender) (m : SocketCommCommand) :
    (applyMeta s m).qp_list = s.qp_list := by
  cases m <;> rfl

theorem applyMeta_mr (s : Sender) (m : SocketCommCommand) :
    (applyMeta s m).sender_metadata_mr = s.sender_metadata_mr := by
  cases m <;> rfl

/-- Master characterization of one successful connect run on a fresh session:
the Responder delivers one first frame encoding m0 and then one encoded
ConnectQueuePair reply per resolvable index; every provider operation
succeeds.  The run sends RegisterMemory first, negotiates the resolvable
indices in increasing order, sends Stop, runs the in-order barrier, stores
whatever the metadata step extracted from m0, and collects the queue pairs
in index order. -/
theorem connect_run (env : ConnEnv) (s : Sender) (m0 : SocketCommCommand)
    (r : Nat → QpMetadata) (hg : goodEnv env) (hr : ∀ j, (r j).valid)
    (hm0 : m0.valid) (hq : s.qp_list = []) :
    connect env s (encode m0 :: qpScript env s.family r 0 s.num_qps) =
      ⟨Event.sent (.Mr (localMeta s)) :: Event.recvd m0 ::
        (catMap (idxEvents env s.family r) (List.range' 0 s.num_qps) ++
          (Event.sent .Stop ::
            barrierEvents s.sender_metadata_mr.addr s.sender_metadata_mr.lkey
              (List.filterMap (idxQp env s.family r) (List.range' 0 s.num_qps)))),
       { applyMeta s m0 with
          qp_list := List.filterMap (idxQp env s.family r) (List.range' 0 s.num_qps) },
       none⟩ := by
  have hrecv : recvMsg (encode m0) = .ok m0 := recvMsg_encode _ hm0
  have hloop := qpLoop_spec env s.family r hg hr s.num_qps 0 []
  rw [List.append_nil] at hloop
  simp only [connect, hrecv, applyMeta_family, applyMeta_num_qps, hloop,
    applyMeta_qp_list, hq, List.nil_append, applyMeta_mr,
    barrier_spec env _ _ hg.2.2.1 hg.2.2.2]

theorem mem_catMap {f : α → List β} {b : β} :
    ∀ {l : List α}, b ∈ catMap f l → ∃ a, a ∈ l ∧ b ∈ f a := by
  intro l
  induction l with
  | nil => intro h; cases h
  | cons a t ih =>
    intro h
    rw [catMap_cons, List.mem_append] at h
    rcases h with h | h
    · exact ⟨a, List.mem_cons_self a t, h⟩
    · obtain ⟨c, hc, hb⟩ := ih h
      exact ⟨c, List.mem_cons_of_mem a hc, hb⟩

theorem mem_catMap_of_mem {f : α → List β} {b : β} {a : α} :
    ∀ {l : List α}, a ∈ l → b ∈ f a → b ∈ catMap f l := by
  intro l
  induction l with
  | nil => intro h; cases h
  | cons c t ih =>
    intro ha hb
    rw [catMap_cons, List.mem_append]
    rcases List.mem_cons.mp ha with h | h
    · exact Or.inl (h ▸ hb)
    · exact Or.inr (ih h hb)

theorem sentMessages_catMap (f : α → List Event) :
    ∀ l : List α, sentMessages (catMap f l) = catMap (fun a => sentMessages (f a)) l := by
  intro l
  induction l with
  | nil => rfl
  | cons a t ih => rw [catMap_cons, sentMessages_append, ih, catMap_cons]

/-- The control messages one index contributes: none when unresolvable,
otherwise its InitQueuePair and its outgoing ConnectQueuePair. -/
theorem sentMessages_idxEvents (env : ConnEnv) (fam : Family)
    (r : Nat → QpMetadata) (j : Nat) :
    sentMessages (idxEvents env fam r j) =
      match env.resolve j fam with
      | none => []
      | some g => [SocketCommCommand.InitQp j fam,
          SocketCommCommand.ConnectQp (localQpMeta env g j)] := by
  cases h : env.resolve j fam <;> simp [idxEvents, h, sentMessages]

theorem filterMap_idxQp_of_resolve (env : ConnEnv) (fam : Family)
    (r : Nat → QpMetadata) (g : Nat → GidEntry) :
    ∀ l : List Nat, (∀ i, i ∈ l → env.resolve i fam = some (g i)) →
      List.filterMap (idxQp env fam r) l = l.map fun i => mkQp env (g i) i (r i) := by
  intro l
  induction l with
  | nil => intro _; rfl
  | cons a t ih =>
    intro h
    have ha := h a (List.mem_cons_self a t)
    rw [List.filterMap_cons, List.map_cons]
    simp only [idxQp, ha, Option.map_some']
    rw [ih fun i hi => h i (List.mem_cons_of_mem a hi)]

theorem filterMap_idxQp_idx (env : ConnEnv) (fam : Family) (r : Nat → QpMetadata) :
    ∀ l : List Nat,
      (List.filterMap (idxQp env fam r) l).map (fun qp => qp.idx) =
        l.filter fun i => (env.resolve i fam).isSome := by
  intro l
  induction l with
  | nil => rfl
  | cons a t ih =>
    rw [List.filterMap_cons, List.filter_cons]
    cases ha : env.resolve a fam with
    | none => simp only [idxQp, ha, Option.map_none', Option.isSome_none]; simpa using ih
    | some g =>
      simp only [idxQp, ha, Option.map_some', Option.isSome_some, List.map_cons, mkQp]
      simpa using ih

/-- Every event of the barrier suffix is a receive posting or a wait. -/
theorem mem_barrierEvents (a l : Nat) (e : Event) :
    ∀ qps : List IbvQp, e ∈ barrierEvents a l qps →
      (∃ i, e = Event.postRecv i a MrMetadata.SIZE l) ∨ ∃ i, e = Event.waitEvent i := by
  intro qps h
  obtain ⟨qp, _, hm⟩ := mem_catMap h
  rcases List.mem_cons.mp hm with h1 | h1
  · exact Or.inl ⟨qp.idx, h1⟩
  · rcases List.mem_cons.mp h1 with h2 | h2
    · exact Or.inr ⟨qp.idx, h2⟩
    · cases h2

theorem length_filter_ne (k : Nat) :
    ∀ N : Nat, k < N → ((List.range N).filter fun i => i != k).length = N - 1 := by
  intro N
  induction N with
  | zero => intro h; cases h
  | succ n ih =>
    intro hk
    rw [List.range_succ, List.filter_append]
    by_cases hkn : k = n
    · subst hkn
      have hall : (List.range k).filter (fun i => i != k) = List.range k := by
        apply List.filter_eq_self.mpr
        intro a ha
        have : a < k := List.mem_range.mp ha
        simp; omega
      simp [hall]
    · have hkn' : k < n := by omega
      have : (n != k) = true := by simp; omega
      rw [List.length_append, ih hkn']
      simp [this]
      omega

/-! ### Claims -/

/-- C8: for every constructible control message m whose fields fit their wire
widths (including the boundary values zero and the maximum integers),
decoding the encoding of m yields m. -/
theorem decode_encode_roundtrip (m : SocketCommCommand) (hm : m.valid) :
    decode (encode m) = .ok m := by
  have hcap : ¬ BUFFER_CAP < (encode m).length := by
    have := encode_length_le m
    simp only [BUFFER_CAP]
    omega
  have hp := parseMsg_encode m hm []
  rw [List.append_nil] at hp
  simp [decode, hcap, hp]

/-- C8 witness: round trip at the all-maximal RegisterMemory message and at
Stop. -/
theorem decode_encode_roundtrip_witness :
    (SocketCommCommand.Mr ⟨18446744073709551615, 4294967295,
      18446744073709551615⟩).valid ∧
    decode (encode (.Mr ⟨18446744073709551615, 4294967295,
      18446744073709551615⟩)) = .ok (.Mr ⟨18446744073709551615, 4294967295,
      18446744073709551615⟩) :=
  ⟨by decide, decode_encode_roundtrip _ (by decide)⟩

/-- C9: the control-connection target brackets the address exactly when the
configured Responder address is not IPv4: for any Display text that does not
itself start with a bracket, the built target starts with a bracket iff the
address is IPv6. -/
theorem send_address_brackets_ipv6 (a : IpAddrM) (p : Nat)
    (h : a.text.head? ≠ some '[') :
    ((sendAddress a p).head? = some '[') ↔ a.isV4 = false := by
  cases hv : a.isV4 with
  | false => simp [sendAddress, hv]
  | true =>
    simp only [sendAddress, hv, if_true]
    cases ht : a.text with
    | nil => simp
    | cons c t =>
      rw [ht] at h
      simp only [List.head?] at h
      simp only [List.cons_append, List.head?]
      constructor
      · intro hc
        exact absurd hc h
      · intro hb
        cases hb

/-- C10: each metadata setter modifies only its correspondingly named field
of sender_metadata; every other field of the Sender, and the other two
sender_metadata fields, are unchanged. -/
theorem setters_frame (s : Sender) (a rk ln : Nat) :
    ((s.set_metadata_address a).sender_metadata.address = a ∧
     (s.set_metadata_address a).sender_metadata.rkey = s.sender_metadata.rkey ∧
     (s.set_metadata_address a).sender_metadata.length = s.sender_metadata.length ∧
     (s.set_metadata_address a).device = s.device ∧
     (s.set_metadata_address a).receiver_socket_address = s.receiver_socket_address ∧
     (s.set_metadata_address a).receiver_socket_port = s.receiver_socket_port ∧
     (s.set_metadata_address a).sender_metadata_mr = s.sender_metadata_mr ∧
     (s.set_metadata_address a).receiver_metadata_address = s.receiver_metadata_address ∧
     (s.set_metadata_address a).receiver_metadata_rkey = s.receiver_metadata_rkey ∧
     (s.set_metadata_address a).pd = s.pd ∧
     (s.set_metadata_address a).qp_list = s.qp_list ∧
     (s.set_metadata_address a).num_qps = s.num_qps ∧
     (s.set_metadata_address a).family = s.family) ∧
    ((s.set_metadata_rkey rk).sender_metadata.rkey = rk ∧
     (s.set_metadata_rkey rk).sender_metadata.address = s.sender_metadata.address ∧
     (s.set_metadata_rkey rk).sender_metadata.length = s.sender_metadata.length ∧
     (s.set_metadata_rkey rk).device = s.device ∧
     (s.set_metadata_rkey rk).receiver_socket_address = s.receiver_socket_address ∧
     (s.set_metadata_rkey rk).receiver_socket_port = s.receiver_socket_port ∧
     (s.set_metadata_rkey rk).sender_metadata_mr = s.sender_metadata_mr ∧
     (s.set_metadata_rkey rk).receiver_metadata_address = s.receiver_metadata_address ∧
     (s.set_metadata_rkey rk).receiver_metadata_rkey = s.receiver_metadata_rkey ∧
     (s.set_metadata_rkey rk).pd = s.pd ∧
     (s.set_metadata_rkey rk).qp_list = s.qp_list ∧
     (s.set_metadata_rkey rk).num_qps = s.num_qps ∧
     (s.set_metadata_rkey rk).family = s.family) ∧
    ((s.set_metadata_length ln).sender_metadata.length = ln ∧
     (s.set_metadata_length ln).sender_metadata.address = s.sender_metadata.address ∧
     (s.set_metadata_length ln).sender_metadata.rkey = s.sender_metadata.rkey ∧
     (s.set_metadata_length ln).device = s.device ∧
     (s.set_metadata_length ln).receiver_socket_address = s.receiver_socket_address ∧
     (s.set_metadata_length ln).receiver_socket_port = s.receiver_socket_port ∧
     (s.set_metadata_length ln).sender_metadata_mr = s.sender_metadata_mr ∧
     (s.set_metadata_length ln).receiver_metadata_address = s.receiver_metadata_address ∧
     (s.set_metadata_length ln).receiver_metadata_rkey = s.receiver_metadata_rkey ∧
     (s.set_metadata_length ln).pd = s.pd ∧
     (s.set_metadata_length ln).qp_list = s.qp_list ∧
     (s.set_metadata_length ln).num_qps = s.num_qps ∧
     (s.set_metadata_length ln).family = s.family) :=
  ⟨⟨rfl, rfl, rfl, rfl, rfl, rfl, rfl, rfl, rfl, rfl, rfl, rfl, rfl⟩,
   ⟨rfl, rfl, rfl, rfl, rfl, rfl, rfl, rfl, rfl, rfl, rfl, rfl, rfl⟩,
   ⟨rfl, rfl, rfl, rfl, rfl, rfl, rfl, rfl, rfl, rfl, rfl, rfl, rfl⟩⟩

theorem catMap_congr (f h : α → List β) :
    ∀ l : List α, (∀ a, a ∈ l → f a = h a) → catMap f l = catMap h l := by
  intro l
  induction l with
  | nil => intro _; rfl
  | cons a t ih =>
    intro hp
    rw [catMap_cons, catMap_cons, hp a (List.mem_cons_self a t),
      ih fun b hb => hp b (List.mem_cons_of_mem a hb)]

/-- C1: with every index resolvable and a well-behaved Responder, connect
sends RegisterMemory first, then per index i in increasing order the pair
InitQueuePair(i) and (after the Responder's reply) its own ConnectQueuePair,
and Stop last; the run succeeds and the queue-pair list has exactly num_qps
entries, in index order. -/
theorem connect_all_resolvable_trace (env : ConnEnv) (s : Sender)
    (md : MrMetadata) (r : Nat → QpMetadata) (g : Nat → GidEntry)
    (hg : goodEnv env) (hr : ∀ j, (r j).valid) (hmd : md.valid)
    (hq : s.qp_list = [])
    (hres : ∀ i, i < s.num_qps → env.resolve i s.family = some (g i)) :
    (connect env s (encode (.Mr md) ::
        qpScript env s.family r 0 s.num_qps)).result = none ∧
    sentMessages (connect env s (encode (.Mr md) ::
        qpScript env s.family r 0 s.num_qps)).events =
      SocketCommCommand.Mr (localMeta s) ::
        (catMap (fun i => [SocketCommCommand.InitQp i s.family,
            SocketCommCommand.ConnectQp (localQpMeta env (g i) i)])
          (List.range s.num_qps) ++ [SocketCommCommand.Stop]) ∧
    (connect env s (encode (.Mr md) ::
        qpScript env s.family r 0 s.num_qps)).sender.qp_list =
      (List.range s.num_qps).map (fun i => mkQp env (g i) i (r i)) ∧
    (connect env s (encode (.Mr md) ::
        qpScript env s.family r 0 s.num_qps)).sender.qp_list.length = s.num_qps ∧
    (connect env s (encode (.Mr md) ::
        qpScript env s.family r 0 s.num_qps)).sender.qp_list.map
      (fun qp => qp.idx) = List.range s.num_qps := by
  have hmem : ∀ i, i ∈ List.range' 0 s.num_qps →
      env.resolve i s.family = some (g i) := by
    intro i hi
    exact hres i (by have := List.mem_range'_1.mp hi; omega)
  rw [connect_run env s (.Mr md) r hg hr hmd hq]
  have hqp : List.filterMap (idxQp env s.family r) (List.range' 0 s.num_qps) =
      (List.range s.num_qps).map fun i => mkQp env (g i) i (r i) := by
    rw [filterMap_idxQp_of_resolve env s.family r g _ hmem, List.range_eq_range']
  have hpt : ∀ i, i ∈ List.range' 0 s.num_qps →
      sentMessages (idxEvents env s.family r i) =
        [SocketCommCommand.InitQp i s.family,
         SocketCommCommand.ConnectQp (localQpMeta env (g i) i)] := by
    intro i hi
    rw [sentMessages_idxEvents, hmem i hi]
  refine ⟨rfl, ?_, ?_, ?_, ?_⟩
  · rw [sentMessages_cons, sentMessages_cons, sentMessages_append,
      sentMessages_catMap, sentMessages_cons, sentMessages_barrierEvents,
      catMap_congr (fun i => sentMessages (idxEvents env s.family r i))
        (fun i => [SocketCommCommand.InitQp i s.family,
          SocketCommCommand.ConnectQp (localQpMeta env (g i) i)]) _ hpt,
      List.range_eq_range']
    simp
  · exact hqp
  · rw [hqp]; simp
  · rw [hqp, List.map_map]
    have hid : ((fun qp => qp.idx) ∘ fun i => mkQp env (g i) i (r i)) =
        fun i => i := rfl
    rw [hid]
    simp

/-- The control messages of a scripted successful run: RegisterMemory first,
then the per-index messages, then Stop; the barrier sends nothing. -/
theorem sentMessages_connect_run (env : ConnEnv) (s : Sender)
    (m0 : SocketCommCommand) (r : Nat → QpMetadata) (hg : goodEnv env)
    (hr : ∀ j, (r j).valid) (hm0 : m0.valid) (hq : s.qp_list = []) :
    sentMessages (connect env s (encode m0 ::
        qpScript env s.family r 0 s.num_qps)).events =
      SocketCommCommand.Mr (localMeta s) ::
        (sentMessages (catMap (idxEvents env s.family r)
            (List.range' 0 s.num_qps)) ++ [SocketCommCommand.Stop]) := by
  rw [connect_run env s m0 r hg hr hm0 hq, sentMessages_cons, sentMessages_cons,
    sentMessages_append, sentMessages_cons, sentMessages_barrierEvents]
  cases m0 <;> simp

/-- Any control message the negotiation loop sends is the InitQueuePair or
the outgoing ConnectQueuePair of some index of the list that the resolver
can serve. -/
theorem mem_sent_loop (env : ConnEnv) (fam : Family) (r : Nat → QpMetadata)
    (m : SocketCommCommand) (l : List Nat)
    (h : m ∈ sentMessages (catMap (idxEvents env fam r) l)) :
    ∃ i, i ∈ l ∧ ∃ gi, env.resolve i fam = some gi ∧
      (m = SocketCommCommand.InitQp i fam ∨
       m = SocketCommCommand.ConnectQp (localQpMeta env gi i)) := by
  rw [sentMessages_catMap] at h
  obtain ⟨i, hil, hm⟩ := mem_catMap h
  rw [sentMessages_idxEvents] at hm
  cases hresi : env.resolve i fam with
  | none => rw [hresi] at hm; cases hm
  | some gi =>
    rw [hresi] at hm
    rcases List.mem_cons.mp hm with h1 | h1
    · exact ⟨i, hil, gi, hresi, Or.inl h1⟩
    · rcases List.mem_cons.mp h1 with h2 | h2
      · exact ⟨i, hil, gi, hresi, Or.inr h2⟩
      · cases h2

/-- C2: if index k is unresolvable and the others are resolvable, connect
succeeds, negotiates the other indices in increasing order (queue-pair count
num_qps - 1), sends no InitQueuePair naming k, creates and connects no queue
pair for k, and still sends Stop. -/
theorem connect_skips_unresolvable (env : ConnEnv) (s : Sender)
    (md : MrMetadata) (r : Nat → QpMetadata) (g : Nat → GidEntry) (k : Nat)
    (hg : goodEnv env) (hr : ∀ j, (r j).valid) (hmd : md.valid)
    (hq : s.qp_list = []) (hk : k < s.num_qps)
    (hkres : env.resolve k s.family = none)
    (hres : ∀ i, i < s.num_qps → i ≠ k → env.resolve i s.family = some (g i)) :
    (connect env s (encode (.Mr md) ::
        qpScript env s.family r 0 s.num_qps)).result = none ∧
    (connect env s (encode (.Mr md) ::
        qpScript env s.family r 0 s.num_qps)).sender.qp_list.map
      (fun qp => qp.idx) = (List.range s.num_qps).filter (fun i => i != k) ∧
    (connect env s (encode (.Mr md) ::
        qpScript env s.family r 0 s.num_qps)).sender.qp_list.length =
      s.num_qps - 1 ∧
    (∀ f, SocketCommCommand.InitQp k f ∉ sentMessages (connect env s
        (encode (.Mr md) :: qpScript env s.family r 0 s.num_qps)).events) ∧
    Event.qpCreated k ∉ (connect env s (encode (.Mr md) ::
        qpScript env s.family r 0 s.num_qps)).events ∧
    Event.qpConnected k ∉ (connect env s (encode (.Mr md) ::
        qpScript env s.family r 0 s.num_qps)).events ∧
    SocketCommCommand.Stop ∈ sentMessages (connect env s (encode (.Mr md) ::
        qpScript env s.family r 0 s.num_qps)).events := by
  have hsent := sentMessages_connect_run env s (.Mr md) r hg hr hmd hq
  have hidx : (connect env s (encode (.Mr md) ::
      qpScript env s.family r 0 s.num_qps)).sender.qp_list.map
        (fun qp => qp.idx) = (List.range s.num_qps).filter (fun i => i != k) := by
    rw [connect_run env s (.Mr md) r hg hr hmd hq]
    show (List.filterMap (idxQp env s.family r) (List.range' 0 s.num_qps)).map
        (fun qp => qp.idx) = _
    rw [filterMap_idxQp_idx, List.range_eq_range']
    apply List.filter_congr
    intro i hi
    have hilt : i < s.num_qps := by have := List.mem_range'_1.mp hi; omega
    by_cases hik : i = k
    · subst hik
      rw [hkres]
      simp
    · rw [hres i hilt hik]
      simp [hik]
  refine ⟨?_, hidx, ?_, ?_, ?_, ?_, ?_⟩
  · rw [connect_run env s (.Mr md) r hg hr hmd hq]
  · have := congrArg List.length hidx
    rw [List.length_map] at this
    rw [this, length_filter_ne k s.num_qps hk]
  · intro f hf
    rw [hsent] at hf
    rcases List.mem_cons.mp hf with h | h
    · cases h
    · rcases List.mem_append.mp h with h | h
      · obtain ⟨i, _, gi, hresi, hcase⟩ := mem_sent_loop env s.family r _ _ h
        rcases hcase with h1 | h1
        · rw [SocketCommCommand.InitQp.injEq] at h1
          rw [h1.1, hresi] at hkres
          cases hkres
        · cases h1
      · rcases List.mem_cons.mp h with h1 | h1
        · cases h1
        · cases h1
  · rw [connect_run env s (.Mr md) r hg hr hmd hq]
    intro hf
    rcases List.mem_cons.mp hf with h | h
    · cases h
    · rcases List.mem_cons.mp h with h | h
      · cases h
      · rcases List.mem_append.mp h with h | h
        · obtain ⟨i, _, hm⟩ := mem_catMap h
          cases hresi : env.resolve i s.family with
          | none => rw [idxEvents, hresi] at hm; cases hm
          | some gi =>
            rw [idxEvents, hresi] at hm
            simp at hm
            rw [hm, hresi] at hkres
            cases hkres
        · rcases List.mem_cons.mp h with h1 | h1
          · cases h1
          · rcases mem_barrierEvents _ _ _ _ h1 with ⟨i, hi⟩ | ⟨i, hi⟩ <;> cases hi
  · rw [connect_run env s (.Mr md) r hg hr hmd hq]
    intro hf
    rcases List.mem_cons.mp hf with h | h
    · cases h
    · rcases List.mem_cons.mp h with h | h
      · cases h
      · rcases List.mem_append.mp h with h | h
        · obtain ⟨i, _, hm⟩ := mem_catMap h
          cases hresi : env.resolve i s.family with
          | none => rw [idxEvents, hresi] at hm; cases hm
          | some gi =>
            rw [idxEvents, hresi] at hm
            simp at hm
            rw [hm, hresi] at hkres
            cases hkres
        · rcases List.mem_cons.mp h with h1 | h1
          · cases h1
          · rcases mem_barrierEvents _ _ _ _ h1 with ⟨i, hi⟩ | ⟨i, hi⟩ <;> cases hi
  · rw [hsent]
    simp

/-- C5: in a scripted successful run, Stop is the last control message, is
sent exactly once, and every resolvable index's InitQueuePair precedes it. -/
theorem stop_sent_once_last (env : ConnEnv) (s : Sender) (md : MrMetadata)
    (r : Nat → QpMetadata) (hg : goodEnv env) (hr : ∀ j, (r j).valid)
    (hmd : md.valid) (hq : s.qp_list = []) :
    ∃ ms, sentMessages (connect env s (encode (.Mr md) ::
        qpScript env s.family r 0 s.num_qps)).events =
      ms ++ [SocketCommCommand.Stop] ∧
      SocketCommCommand.Stop ∉ ms ∧
      ∀ i, i < s.num_qps → ∀ gi, env.resolve i s.family = some gi →
        SocketCommCommand.InitQp i s.family ∈ ms := by
  have hsent := sentMessages_connect_run env s (.Mr md) r hg hr hmd hq
  refine ⟨SocketCommCommand.Mr (localMeta s) ::
    sentMessages (catMap (idxEvents env s.family r)
      (List.range' 0 s.num_qps)), ?_, ?_, ?_⟩
  · rw [hsent, List.cons_append]
  · intro hmem
    rcases List.mem_cons.mp hmem with h | h
    · cases h
    · obtain ⟨i, _, gi, _, hcase⟩ := mem_sent_loop env s.family r _ _ h
      rcases hcase with h1 | h1 <;> cases h1
  · intro i hi gi hresi
    apply List.mem_cons_of_mem
    rw [sentMessages_catMap]
    apply mem_catMap_of_mem (List.mem_range'_1.mpr ⟨Nat.zero_le i, by omega⟩)
    rw [sentMessages_idxEvents, hresi]
    simp

/-- C6: once the first received message decodes to RegisterMemory, the stored
remote metadata is exactly the decoded address and rkey, untransformed, and
no later step of connect changes it, whatever the rest of the run does. -/
theorem remote_metadata_stored_literal (env : ConnEnv) (s : Sender)
    (frame : List Nat) (rest : List (List Nat)) (md : MrMetadata)
    (h : recvMsg frame = .ok (.Mr md)) :
    (connect env s (frame :: rest)).sender.receiver_metadata_address =
      md.address ∧
    (connect env s (frame :: rest)).sender.receiver_metadata_rkey = md.rkey := by
  simp only [connect, h]
  split
  · constructor <;> rfl
  · constructor <;> rfl

/-- C7: a scripted successful run ends with Stop followed by, for each
connected queue pair in connection order, exactly one receive posting at the
local metadata buffer and one completion wait; the run succeeds only with
this full barrier suffix present. -/
theorem barrier_after_stop_in_order (env : ConnEnv) (s : Sender)
    (md : MrMetadata) (r : Nat → QpMetadata) (hg : goodEnv env)
    (hr : ∀ j, (r j).valid) (hmd : md.valid) (hq : s.qp_list = []) :
    (connect env s (encode (.Mr md) ::
        qpScript env s.family r 0 s.num_qps)).result = none ∧
    (connect env s (encode (.Mr md) ::
        qpScript env s.family r 0 s.num_qps)).events =
      (Event.sent (.Mr (localMeta s)) :: Event.recvd (.Mr md) ::
        catMap (idxEvents env s.family r) (List.range' 0 s.num_qps)) ++
      Event.sent .Stop ::
        barrierEvents s.sender_metadata_mr.addr s.sender_metadata_mr.lkey
          (connect env s (encode (.Mr md) ::
            qpScript env s.family r 0 s.num_qps)).sender.qp_list := by
  rw [connect_run env s (.Mr md) r hg hr hmd hq]
  refine ⟨rfl, ?_⟩
  simp [List.cons_append]

theorem applyMeta_of_ne_mr (s : Sender) (m : SocketCommCommand)
    (h : ∀ md, m ≠ .Mr md) : applyMeta s m = s := by
  cases m with
  | Mr md => exact absurd rfl (h md)
  | InitQp i f => rfl
  | ConnectQp q => rfl
  | Stop => rfl

/-- C3 counterexample: with num_qps = 0 and the first received message being
Stop, which is not expected at the metadata-exchange step, connect does not
abort with a ProtocolViolation: the run returns success and still sends its
own Stop afterwards (the source's if-let silently ignores the unexpected
variant). -/
theorem unexpected_variant_no_abort_cex :
    (connect wEnv (wSender 0) [encode .Stop]).result = none ∧
    sentMessages (connect wEnv (wSender 0) [encode .Stop]).events =
      [SocketCommCommand.Mr ⟨500, 9, 0⟩, SocketCommCommand.Stop] := by
  constructor
  · rfl
  · rfl

/-- C3 amended: a received variant not expected at the current handshake
state is silently ignored, not a fatal error.  At the metadata step a
non-RegisterMemory message leaves the stored remote metadata unchanged and
the run continues to completion; after InitQueuePair a non-ConnectQueuePair
reply makes connect skip that index's connect-push-reply block (no queue
pair appended, no ConnectQueuePair sent) and continue with Stop. -/
theorem unexpected_variant_silently_ignored :
    (∀ (env : ConnEnv) (s : Sender) (m0 : SocketCommCommand)
        (r : Nat → QpMetadata),
      goodEnv env → (∀ j, (r j).valid) → m0.valid → s.qp_list = [] →
      (∀ md, m0 ≠ .Mr md) →
      (connect env s (encode m0 ::
          qpScript env s.family r 0 s.num_qps)).result = none ∧
      (connect env s (encode m0 :: qpScript env s.family r 0
          s.num_qps)).sender.receiver_metadata_address =
        s.receiver_metadata_address ∧
      (connect env s (encode m0 :: qpScript env s.family r 0
          s.num_qps)).sender.receiver_metadata_rkey =
        s.receiver_metadata_rkey) ∧
    (∀ (env : ConnEnv) (s : Sender) (g : GidEntry) (md : MrMetadata)
        (m1 : SocketCommCommand),
      s.qp_list = [] → s.num_qps = 1 → env.resolve 0 s.family = some g →
      env.qpInitOk 0 = true → md.valid → m1.valid →
      (∀ q, m1 ≠ .ConnectQp q) →
      (connect env s [encode (.Mr md), encode m1]).result = none ∧
      (connect env s [encode (.Mr md), encode m1]).sender.qp_list = [] ∧
      sentMessages (connect env s [encode (.Mr md), encode m1]).events =
        [SocketCommCommand.Mr (localMeta s), SocketCommCommand.InitQp 0 s.family,
         SocketCommCommand.Stop]) := by
  constructor
  · intro env s m0 r hg hr hm0 hq hne
    rw [connect_run env s m0 r hg hr hm0 hq]
    refine ⟨rfl, ?_, ?_⟩ <;>
      simp [applyMeta_of_ne_mr s m0 hne]
  · intro env s g md m1 hq hn hres hinit hmd hm1 hne
    have hrecv0 : recvMsg (encode (.Mr md)) = .ok (.Mr md) :=
      recvMsg_encode _ hmd
    have hrecv1 : recvMsg (encode m1) = .ok m1 := recvMsg_encode _ hm1
    have hloop : qpLoop env s.family 0 s.num_qps [encode m1] =
        ([Event.qpCreated 0, Event.qpInited 0,
          Event.sent (.InitQp 0 s.family), Event.recvd m1], [], [], none) := by
      rw [hn]
      cases m1 with
      | ConnectQp q => exact absurd rfl (hne q)
      | Mr a => simp [qpLoop, hres, hinit, hrecv1]
      | InitQp a b => simp [qpLoop, hres, hinit, hrecv1]
      | Stop => simp [qpLoop, hres, hinit, hrecv1]
    simp only [connect, hrecv0, applyMeta_family, applyMeta_num_qps, hloop,
      applyMeta_qp_list, hq]
    refine ⟨rfl, ?_, ?_⟩
    · rfl
    · rfl

theorem padBuf_length (frame : List Nat) :
    (padBuf frame).length = BUFFER_CAP := by
  simp only [padBuf, BUFFER_CAP, List.length_append, List.length_take,
    List.length_replicate]
  omega

theorem readU32_of_le (bs : List Nat) (h : 4 <= bs.length) :
    ∃ v r, readU32 bs = some (v, r) ∧ r.length + 4 = bs.length := by
  rcases bs with _ | ⟨a, _ | ⟨b, _ | ⟨c, _ | ⟨d, t⟩⟩⟩⟩
  · exfalso; simp at h
  · exfalso; simp at h
  · exfalso; simp at h
  · exfalso; simp at h
  · exact ⟨a + 256 * b + 65536 * c + 16777216 * d, t, rfl, by simp⟩

theorem readU64_of_le (bs : List Nat) (h : 8 <= bs.length) :
    ∃ v r, readU64 bs = some (v, r) ∧ r.length + 8 = bs.length := by
  obtain ⟨v1, r1, h1, hl1⟩ := readU32_of_le bs (by omega)
  obtain ⟨v2, r2, h2, hl2⟩ := readU32_of_le r1 (by omega)
  exact ⟨v1 + 4294967296 * v2, r2, by simp [readU64, h1, h2], by omega⟩

/-- On a byte sequence long enough for any message (the padded receive
buffer always is), the prefix parser can only fail on an unknown
discriminant or an invalid family value: truncation can never be observed
there. -/
theorem parseMsg_error_shape (bs : List Nat) (h : 28 <= bs.length)
    (e : DecodeError) (hp : parseMsg bs = .error e) :
    e = DecodeError.unknownDiscriminant ∨ e = DecodeError.badFamily := by
  obtain ⟨d, r0, h0, hl0⟩ := readU32_of_le bs (by omega)
  simp only [parseMsg, h0] at hp
  split at hp
  · obtain ⟨a1, r1, ha1, hla1⟩ := readU64_of_le r0 (by omega)
    obtain ⟨a2, r2, ha2, hla2⟩ := readU32_of_le r1 (by omega)
    obtain ⟨a3, r3, ha3, hla3⟩ := readU64_of_le r2 (by omega)
    simp only [ha1, ha2, ha3] at hp
    cases hp
  · split at hp
    · obtain ⟨a1, r1, ha1, hla1⟩ := readU32_of_le r0 (by omega)
      obtain ⟨a2, r2, ha2, hla2⟩ := readU32_of_le r1 (by omega)
      simp only [ha1, ha2] at hp
      split at hp
      · cases hp
      · split at hp
        · cases hp
        · injection hp with h2
          exact Or.inr h2.symm
    · split at hp
      · obtain ⟨a1, r1, ha1, hla1⟩ := readU64_of_le r0 (by omega)
        obtain ⟨a2, r2, ha2, hla2⟩ := readU64_of_le r1 (by omega)
        obtain ⟨a3, r3, ha3, hla3⟩ := readU32_of_le r2 (by omega)
        obtain ⟨a4, r4, ha4, hla4⟩ := readU32_of_le r3 (by omega)
        simp only [ha1, ha2, ha3, ha4] at hp
        cases hp
      · split at hp
        · cases hp
        · injection hp with h2
          exact Or.inl h2.symm

/-- A read of connect can only fail on an unknown discriminant or an
invalid family value: the fixed zero-initialized receive buffer pads short
reads and clips long ones, so truncated and oversized sequences are never
detected as such. -/
theorem recvMsg_error_shape (frame : List Nat) (e : DecodeError)
    (h : recvMsg frame = .error e) :
    e = DecodeError.unknownDiscriminant ∨ e = DecodeError.badFamily := by
  have hlen : 28 <= (padBuf frame).length := by
    rw [padBuf_length]
    norm_num [BUFFER_CAP]
  rw [recvMsg] at h
  cases hp : parseMsg (padBuf frame) with
  | error e2 =>
    rw [hp] at h
    injection h with h2
    exact h2 ▸ parseMsg_error_shape _ hlen e2 hp
  | ok p =>
    rw [hp] at h
    cases h

/-- C4 counterexample: a truncated read does not yield a decode error and
does not abort connect.  The empty byte sequence (shorter than any message)
is zero-padded by the fixed receive buffer and decodes successfully as
RegisterMemory(0, 0, 0); connect fed that read completes successfully and
still sends Stop afterwards.  An oversized sequence (1225 bytes, beyond the
1024-byte buffer) is clipped and likewise decodes successfully. -/
theorem truncated_read_no_abort_cex :
    ([] : List Nat).length < 4 ∧
    recvMsg [] = .ok (.Mr ⟨0, 0, 0⟩) ∧
    (connect wEnv (wSender 0) [[]]).result = none ∧
    sentMessages (connect wEnv (wSender 0) [[]]).events =
      [SocketCommCommand.Mr ⟨500, 9, 0⟩, SocketCommCommand.Stop] ∧
    BUFFER_CAP < (List.replicate 1225 (0 : Nat)).length ∧
    recvMsg (List.replicate 1225 (0 : Nat)) = .ok (.Mr ⟨0, 0, 0⟩) := by
  refine ⟨by decide, rfl, rfl, rfl, ?_, rfl⟩
  rw [List.length_replicate]
  norm_num [BUFFER_CAP]

/-- C4 amended: a read from the control connection fails to decode only for
malformed content, an unknown discriminant or an invalid family value;
truncated and oversized sequences are silently accepted by the fixed
zero-padded receive buffer and never yield those errors.  When a read does
fail to decode, connect aborts at that point with the decode error and
sends no further messages: at the first read only RegisterMemory has been
sent, and at a loop read only RegisterMemory and that index's
InitQueuePair. -/
theorem malformed_read_aborts :
    (∀ (frame : List Nat) (e : DecodeError), recvMsg frame = .error e →
      e = DecodeError.unknownDiscriminant ∨ e = DecodeError.badFamily) ∧
    (∀ (env : ConnEnv) (s : Sender) (frame : List Nat)
        (rest : List (List Nat)) (e : DecodeError),
      recvMsg frame = .error e →
      connect env s (frame :: rest) =
        ⟨[Event.sent (.Mr (localMeta s))], s, some (.decode e)⟩) ∧
    (∀ (env : ConnEnv) (s : Sender) (g : GidEntry) (md : MrMetadata)
        (frame2 : List Nat) (e : DecodeError),
      s.qp_list = [] → s.num_qps = 1 → env.resolve 0 s.family = some g →
      env.qpInitOk 0 = true → md.valid → recvMsg frame2 = .error e →
      (connect env s [encode (.Mr md), frame2]).result = some (.decode e) ∧
      sentMessages (connect env s [encode (.Mr md), frame2]).events =
        [SocketCommCommand.Mr (localMeta s),
         SocketCommCommand.InitQp 0 s.family]) := by
  refine ⟨recvMsg_error_shape, ?_, ?_⟩
  · intro env s frame rest e h
    simp only [connect, h]
  · intro env s g md frame2 e hq hn hres hinit hmd h
    have hrecv0 : recvMsg (encode (.Mr md)) = .ok (.Mr md) :=
      recvMsg_encode _ hmd
    have hloop : qpLoop env s.family 0 s.num_qps [frame2] =
        ([Event.qpCreated 0, Event.qpInited 0,
          Event.sent (.InitQp 0 s.family)], [], [], some (.decode e)) := by
      rw [hn]
      simp [qpLoop, hres, hinit, h]
    simp only [connect, hrecv0, applyMeta_family, applyMeta_num_qps, hloop]
    exact ⟨by trivial, by trivial⟩

theorem wEnv_good : goodEnv wEnv :=
  ⟨fun _ => rfl, fun _ => rfl, fun _ => rfl, fun _ => rfl⟩

theorem wEnvSkip_good : goodEnv wEnvSkip :=
  ⟨fun _ => rfl, fun _ => rfl, fun _ => rfl, fun _ => rfl⟩

theorem wR_valid : ∀ j, (wR j).valid := by
  intro j
  show (1 : Nat) < 2 ^ 64 ∧ (2 : Nat) < 2 ^ 64 ∧ (3 : Nat) < 2 ^ 32 ∧
    (4 : Nat) < 2 ^ 32
  refine ⟨?_, ?_, ?_, ?_⟩ <;> norm_num

/-- C1 witness: two queue pairs, every index resolvable. -/
theorem connect_all_resolvable_trace_witness :
    goodEnv wEnv ∧ (∀ j, (wR j).valid) ∧
    (connect wEnv (wSender 2) (encode (.Mr ⟨5, 6, 7⟩) ::
        qpScript wEnv (wSender 2).family wR 0 (wSender 2).num_qps)).result =
      none :=
  ⟨wEnv_good, wR_valid,
    (connect_all_resolvable_trace wEnv (wSender 2) ⟨5, 6, 7⟩ wR wG wEnv_good
      wR_valid (by decide) rfl fun i _ => rfl).1⟩

/-- C2 witness: three requested queue pairs with index 1 unresolvable give
two connected queue pairs. -/
theorem connect_skips_unresolvable_witness :
    1 < (wSender 3).num_qps ∧
    wEnvSkip.resolve 1 (wSender 3).family = none ∧
    (connect wEnvSkip (wSender 3) (encode (.Mr ⟨5, 6, 7⟩) ::
        qpScript wEnvSkip (wSender 3).family wR 0
          (wSender 3).num_qps)).sender.qp_list.length =
      (wSender 3).num_qps - 1 :=
  ⟨by decide, rfl,
    (connect_skips_unresolvable wEnvSkip (wSender 3) ⟨5, 6, 7⟩ wR wG 1
      wEnvSkip_good wR_valid (by decide) rfl (by decide) rfl
      (fun i _ hne => by simp [wEnvSkip, wEnv, wG, hne])).2.2.1⟩

/-- C3 witness: a Stop received at the metadata step is ignored and the run
still succeeds with the remote metadata untouched. -/
theorem unexpected_variant_silently_ignored_witness :
    SocketCommCommand.Stop.valid ∧
    (connect wEnv (wSender 1) (encode .Stop ::
        qpScript wEnv (wSender 1).family wR 0 (wSender 1).num_qps)).result =
      none ∧
    (connect wEnv (wSender 1) (encode .Stop ::
        qpScript wEnv (wSender 1).family wR 0
          (wSender 1).num_qps)).sender.receiver_metadata_address =
      (wSender 1).receiver_metadata_address :=
  ⟨trivial,
   (unexpected_variant_silently_ignored.1 wEnv (wSender 1) .Stop wR wEnv_good
     wR_valid trivial rfl fun _ h => SocketCommCommand.noConfusion h).1,
   (unexpected_variant_silently_ignored.1 wEnv (wSender 1) .Stop wR wEnv_good
     wR_valid trivial rfl fun _ h => SocketCommCommand.noConfusion h).2.1⟩

/-- C4 witness: an unknown-discriminant frame makes the first read fail and
connect abort having sent only its RegisterMemory. -/
theorem malformed_read_aborts_witness :
    recvMsg [5, 0, 0, 0] = .error .unknownDiscriminant ∧
    connect wEnv (wSender 0) [[5, 0, 0, 0]] =
      ⟨[Event.sent (.Mr ⟨500, 9, 0⟩)], wSender 0,
       some (.decode .unknownDiscriminant)⟩ :=
  ⟨rfl, malformed_read_aborts.2.1 wEnv (wSender 0) [5, 0, 0, 0] []
    .unknownDiscriminant rfl⟩

/-- C5 witness: one queue pair, scripted run. -/
theorem stop_sent_once_last_witness :
    goodEnv wEnv ∧
    ∃ ms, sentMessages (connect wEnv (wSender 1) (encode (.Mr ⟨5, 6, 7⟩) ::
        qpScript wEnv (wSender 1).family wR 0 (wSender 1).num_qps)).events =
      ms ++ [SocketCommCommand.Stop] ∧
      SocketCommCommand.Stop ∉ ms ∧
      ∀ i, i < (wSender 1).num_qps → ∀ gi,
        wEnv.resolve i (wSender 1).family = some gi →
        SocketCommCommand.InitQp i (wSender 1).family ∈ ms :=
  ⟨wEnv_good, stop_sent_once_last wEnv (wSender 1) ⟨5, 6, 7⟩ wR wEnv_good
    wR_valid (by decide) rfl⟩

/-- C6 witness: the literal decoded address is stored. -/
theorem remote_metadata_stored_literal_witness :
    recvMsg (encode (.Mr ⟨5, 6, 7⟩)) = .ok (.Mr ⟨5, 6, 7⟩) ∧
    (connect wEnv (wSender 0)
        [encode (.Mr ⟨5, 6, 7⟩)]).sender.receiver_metadata_address = 5 :=
  ⟨recvMsg_encode (.Mr ⟨5, 6, 7⟩) (by decide),
   (remote_metadata_stored_literal wEnv (wSender 0) (encode (.Mr ⟨5, 6, 7⟩))
     [] ⟨5, 6, 7⟩ (recvMsg_encode (.Mr ⟨5, 6, 7⟩) (by decide))).1⟩

/-- C7 witness: one queue pair, scripted run succeeds. -/
theorem barrier_after_stop_in_order_witness :
    goodEnv wEnv ∧ MrMetadata.valid ⟨5, 6, 7⟩ ∧
    (connect wEnv (wSender 1) (encode (.Mr ⟨5, 6, 7⟩) ::
        qpScript wEnv (wSender 1).family wR 0 (wSender 1).num_qps)).result =
      none :=
  ⟨wEnv_good, by decide,
   (barrier_after_stop_in_order wEnv (wSender 1) ⟨5, 6, 7⟩ wR wEnv_good
     wR_valid (by decide) rfl).1⟩

/-- C9 witness: an IPv4 address text yields an unbracketed target. -/
theorem send_address_brackets_ipv6_witness :
    (IpAddrM.mk ['l', 'o'] true).text.head? ≠ some '[' ∧
    (((sendAddress ⟨['l', 'o'], true⟩ 80).head? = some '[') ↔
      (IpAddrM.mk ['l', 'o'] true).isV4 = false) :=
  ⟨by decide, send_address_brackets_ipv6 ⟨['l', 'o'], true⟩ 80 (by decide)⟩
